import Mathlib

/-!
# Verification of the rstblog build pipeline

Shallow embedding of the core build logic of the `rstblog` static-site
generator (`rstblog/builder.py`, `rstblog/programs.py`, `rstblog/utils.py`),
together with theorems settling the specified properties.

Python strings are embedded as `List Char` (named `Str` below) where character
level operations matter, and as `String` where the value is only passed
around.  File modification times are embedded as integers: only their relative
order is ever consulted by the code.
-/

namespace Rstblog

/-- Python strings, embedded as lists of characters. -/
abbrev Str := List Char

/-! ## Staleness (`Context.needs_build`, builder.py lines 126-134)

The code reads:
```
@property
def needs_build(self):
    if self.is_new:
        return True
    dst_time = os.path.getmtime(self.full_destination_filename)
    metadata = self.full_source_metadata_filename
    if os.path.exists(metadata) and dst_time < os.path.getmtime(metadata):
        return True
    return dst_time < os.path.getmtime(self.full_source_filename)
```
with `is_new = not os.path.exists(self.full_destination_filename)`.
The relevant filesystem facts for one context are captured by `FileTimes`.
-/

/-- The filesystem facts `Context.needs_build` consults: whether the
destination artifact exists, its mtime, the source's mtime, whether the
sidecar metadata file (same basename, `.yml` extension) exists, and its
mtime.  The mtime fields are only meaningful when the corresponding file
exists, matching the code, which only calls `getmtime` after the existence
check. -/
structure FileTimes where
  destExists : Bool
  destMtime : Int
  srcMtime : Int
  metadataExists : Bool
  metadataMtime : Int

/-- Embeds `Context.is_new`: true iff the destination artifact does not exist. -/
def is_new (t : FileTimes) : Bool :=
  !t.destExists

/-- Embeds `Context.needs_build` (builder.py lines 126-134), transcribed branch by
branch. -/
def needs_build (t : FileTimes) : Bool :=
  if is_new t then
    true
  else if t.metadataExists && decide (t.destMtime < t.metadataMtime) then
    true
  else
    decide (t.destMtime < t.srcMtime)

/-! ## Pagination (`utils.py`, class `Pagination`)

`Pagination` holds `entries`, a 1-based `page` number and `per_page`.
`pages = int(ceil(total / float(per_page)))`, `get_slice()` returns
`entries[(page - 1) * per_page : page * per_page]`, `has_prev = page > 1`,
`has_next = page < pages`.  The builder and url_key fields play no role in
these computations and are omitted. -/

structure Pagination (α : Type) where
  entries : List α
  page : Nat
  per_page : Nat

namespace Pagination

variable {α : Type}

/-- Embeds `Pagination.total`: `len(self.entries)`. -/
def total (p : Pagination α) : Nat :=
  p.entries.length

/-- Embeds `Pagination.pages`: `int(ceil(total / float(per_page)))`, i.e. the
ceiling division of `total` by `per_page`. -/
def pages (p : Pagination α) : Nat :=
  (p.total + p.per_page - 1) / p.per_page

/-- Embeds `Pagination.has_prev`: `page > 1`. -/
def has_prev (p : Pagination α) : Bool :=
  decide (p.page > 1)

/-- Embeds `Pagination.has_next`: `page < pages`. -/
def has_next (p : Pagination α) : Bool :=
  decide (p.page < p.pages)

/-- Embeds `Pagination.get_slice`: the Python slice
`entries[(page - 1) * per_page : page * per_page]`, i.e. keep the elements
with index `i` satisfying `(page - 1) * per_page ≤ i < page * per_page`. -/
def get_slice (p : Pagination α) : List α :=
  (p.entries.take (p.page * p.per_page)).drop ((p.page - 1) * p.per_page)

end Pagination

/-! ## Build-pass lifecycle events (builder.py, `Context.__init__` lines 53-76,
`Context.run`/`Context.build` lines 189-196, `Builder.run` lines 387-400)

`Builder.run` iterates `iter_contexts()` (which constructs each `Context`
with `prepare=True`); it then calls `context.run()` only when
`context.needs_build`, and finally sends `before_build_finished`.

`Context.__init__` with `prepare=True` calls `program.prepare()`, sends
`after_file_prepared`, and, when the context is public, sends
`after_file_published` — unconditionally, whether or not the file needs
building.  `Context.run` sends `before_file_processed` and, when
`needs_build`, calls `build()`, which sends `before_file_built` and runs the
program.

For the event trace, a discovered file is abstracted to its name, whether
its destination is stale (`needs_build` is a pure property of the on-disk
timestamps, unchanged during the pass), and whether it is public
(`config.get("public", True)`). -/

/-- A discovered source file, abstracted to what the event sequence of
`Builder.run` depends on. -/
structure SFile where
  name : String
  needsBuild : Bool
  public : Bool
deriving DecidableEq, Repr

/-- The lifecycle events sent over the signal bus during a pass. -/
inductive Event
  /-- Event `after_file_prepared`. -/
  | prepared (name : String)
  /-- Event `after_file_published`. -/
  | published (name : String)
  /-- Event `before_file_processed`. -/
  | processed (name : String)
  /-- Event `before_file_built`. -/
  | built (name : String)
  /-- Event `before_build_finished`. -/
  | buildFinished
deriving DecidableEq, Repr

/-- Events sent by `Context.__init__` when constructed with `prepare=True`
(builder.py lines 68-76): `after_file_prepared` always, then
`after_file_published` when the context is public. -/
def contextInitEvents (f : SFile) : List Event :=
  [Event.prepared f.name] ++ (if f.public then [Event.published f.name] else [])

/-- Events sent by `Context.run` (builder.py lines 189-196):
`before_file_processed`, then — when `needs_build` — `before_file_built`
from `build()`. -/
def contextRunEvents (f : SFile) : List Event :=
  [Event.processed f.name] ++ (if f.needsBuild then [Event.built f.name] else [])

/-- The full event trace of `Builder.run` (builder.py lines 387-400) over the
discovered files in discovery order: each context is constructed with
`prepare=True` (emitting its init events), `context.run()` is invoked only
when `needs_build`, and one `before_build_finished` closes the pass.
`fileChunkEvents` is the part of the trace belonging to one file. -/
def fileChunkEvents (f : SFile) : List Event :=
  contextInitEvents f ++ (if f.needsBuild then contextRunEvents f else [])

/-- See `builderRunEvents`. -/
def builderRunEvents (files : List SFile) : List Event :=
  (files.map fileChunkEvents).flatten ++ [Event.buildFinished]

/-- Number of `after_file_published` events for the file `n` that a
subscriber counting publish events observes in the trace `evs`. -/
def countPublished (n : String) (evs : List Event) : Nat :=
  evs.count (Event.published n)

/-- Number of events of any kind mentioning the file `n` in the trace
`evs`. -/
def countEventsFor (n : String) (evs : List Event) : Nat :=
  evs.countP fun e =>
    match e with
    | Event.prepared m => m = n
    | Event.published m => m = n
    | Event.processed m => m = n
    | Event.built m => m = n
    | Event.buildFinished => false

/-! ## Module storage (builder.py, `Builder.get_storage` line 300-301 and
`Builder.run` lines 387-388)

`Builder.storage` is a dict mapping a module name to that module's own dict;
`get_storage(module)` is `self.storage.setdefault(module, {})`, and
`Builder.run` begins with `self.storage.clear()`.  The storage is embedded
as an association list from module name to the module's own association
list; a module writing key `k` under its name `m` is `setStorageKey`. -/

/-- Embeds `Builder.storage`: module name → that module's keyed mapping. -/
def Storage (α : Type) := List (String × List (String × α))

/-- Embeds `self.storage.clear()`: empty the whole storage. -/
def clearStorage {α : Type} (_ : Storage α) : Storage α :=
  []

/-- Embeds `Builder.get_storage(module)`: the module's own mapping,
`self.storage.setdefault(module, {})` — the empty mapping when the module
has no entry yet. -/
def getStorage {α : Type} (st : Storage α) (m : String) : List (String × α) :=
  match st with
  | [] => []
  | (m', d) :: rest => if m' = m then d else getStorage rest m

/-- A module storing value `v` under key `k` in its own storage: mutate the
dict returned by `get_storage(m)` in place, i.e. update (or create) the
entry for module `m`. -/
def setStorageKey {α : Type} (st : Storage α) (m k : String) (v : α) : Storage α :=
  match st with
  | [] => [(m, [(k, v)])]
  | (m', d) :: rest =>
      if m' = m then (m', (k, v) :: d) :: rest
      else (m', d) :: setStorageKey rest m k v

/-- Embeds `Builder.run` as a storage transformer: `self.storage.clear()` first,
then the subscribers (`handler`, one storage update per delivered event)
fold over the pass's event trace. -/
def runPassStorage {α : Type} (handler : Event → Storage α → Storage α)
    (prior : Storage α) (files : List SFile) : Storage α :=
  (builderRunEvents files).foldl (fun st e => handler e st) (clearStorage prior)

/-! ## Glob matching (`fnmatch.fnmatch` from the Python standard library)

`Builder.filter_files` and `Builder.guess_program` both match filenames
against shell glob patterns via `fnmatch.fnmatch(filename, pattern)`:
`*` matches any (possibly empty) run of characters, `?` matches exactly one
character, `[seq]` matches one character of the set (with `a-z` ranges and a
leading `!` negating the set; a `]` right after the opening  — or after the
`!` — is a literal member), and an unmatched `[` is a literal `[`.  On POSIX
no case folding happens.  The pattern is first parsed into tokens
(`parseGlob`), then matched (`tokMatch`). -/

/-- One parsed glob-pattern token. -/
inductive GlobTok
  | star
  | anyChar
  | lit (c : Char)
  | cls (negated : Bool) (ranges : List (Char × Char))
deriving DecidableEq, Repr

/-- Scan up to the closing `]` of a character class: returns the class body
and the remainder of the pattern after the `]`, or `none` when the class is
never closed. -/
def findClose : Str → Option (Str × Str)
  | [] => none
  | c :: rest =>
      if c = ']' then some ([], rest)
      else (findClose rest).map fun p => (c :: p.1, p.2)

theorem findClose_rest_length :
    ∀ (l body rest : Str), findClose l = some (body, rest) → rest.length < l.length := by
  intro l
  induction l with
  | nil => intro body rest h; simp [findClose] at h
  | cons c cs ih =>
    intro body rest h
    simp only [findClose] at h
    by_cases hc : c = ']'
    · rw [if_pos hc] at h
      injection h with h'
      injection h' with h1 h2
      simp [← h2]
    · rw [if_neg hc] at h
      rcases Option.map_eq_some'.mp h with ⟨p, hp, he⟩
      have hlt := ih p.1 p.2 (by rw [hp])
      have h2 : p.2 = rest := congrArg Prod.snd he
      rw [h2] at hlt
      simp only [List.length_cons]
      omega

/-- The `!`-negation marker at the head of a character class: returns the
negation flag and the remaining pattern characters. -/
def classAfterBang (ps : Str) : Bool × Str :=
  match ps with
  | [] => (false, [])
  | c :: t => if c = '!' then (true, t) else (false, ps)

/-- The body of a character class (a `]` in first position is a literal
member), together with the remainder of the pattern after the closing `]`. -/
def classBody (ps : Str) : Option (Str × Str) :=
  match ps with
  | [] => none
  | c :: t =>
      if c = ']' then (findClose t).map fun p => (']' :: p.1, p.2)
      else (findClose ps).map fun p => (p.1, p.2)

/-- Parse a character class directly after a `[`: optional leading `!`, the
body up to the closing `]`, and the rest of the pattern; `none` when the
class is never closed (the `[` is then a literal). -/
def parseClass (ps : Str) : Option (Bool × Str × Str) :=
  let nb := classAfterBang ps
  (classBody nb.2).map fun p => (nb.1, p.1, p.2)

theorem classAfterBang_snd_length (ps : Str) :
    (classAfterBang ps).2.length ≤ ps.length := by
  cases ps with
  | nil => simp [classAfterBang]
  | cons c t =>
    simp only [classAfterBang]
    by_cases hc : c = '!'
    · rw [if_pos hc]; simp
    · rw [if_neg hc]

theorem classBody_rest_length :
    ∀ (ps body rest : Str), classBody ps = some (body, rest) → rest.length < ps.length := by
  intro ps body rest h
  cases ps with
  | nil => simp [classBody] at h
  | cons c t =>
    simp only [classBody] at h
    by_cases hc : c = ']'
    · rw [if_pos hc] at h
      rcases Option.map_eq_some'.mp h with ⟨p, hp, he⟩
      have hlt := findClose_rest_length t p.1 p.2 (by rw [hp])
      have h2 : p.2 = rest := congrArg Prod.snd he
      rw [h2] at hlt
      simp only [List.length_cons]
      omega
    · rw [if_neg hc] at h
      rcases Option.map_eq_some'.mp h with ⟨p, hp, he⟩
      have hlt := findClose_rest_length (c :: t) p.1 p.2 (by rw [hp])
      have h2 : p.2 = rest := congrArg Prod.snd he
      rw [h2] at hlt
      omega

theorem parseClass_rest_length :
    ∀ (ps : Str) (nbr : Bool × Str × Str),
      parseClass ps = some nbr → nbr.2.2.length < ps.length := by
  intro ps nbr h
  simp only [parseClass] at h
  rcases Option.map_eq_some'.mp h with ⟨p, hp, he⟩
  have hlt := classBody_rest_length (classAfterBang ps).2 p.1 p.2 (by rw [hp])
  have hle := classAfterBang_snd_length ps
  have h2 : p.2 = nbr.2.2 := congrArg (fun x => x.2.2) he
  rw [h2] at hlt
  omega

/-- An `a-z` style range inside a character class matches `c` when
`a ≤ c ≤ z`; a plain member `a` is the range `a-a`. -/
def inRanges (rs : List (Char × Char)) (c : Char) : Bool :=
  rs.any fun r => decide (r.1 ≤ c) && decide (c ≤ r.2)

/-- Parse a character-class body into its ranges: `a-z` is a range, any
other character is a singleton; a trailing `-` is a literal member. -/
def rangesOf : Str → List (Char × Char)
  | a :: '-' :: b :: rest => (a, b) :: rangesOf rest
  | a :: rest => (a, a) :: rangesOf rest
  | [] => []

/-- Parse a glob pattern into tokens, following `fnmatch.translate`. -/
def parseGlob (pat : Str) : List GlobTok :=
  match pat with
  | [] => []
  | '*' :: ps => GlobTok.star :: parseGlob ps
  | '?' :: ps => GlobTok.anyChar :: parseGlob ps
  | '[' :: ps =>
      match h : parseClass ps with
      | some nbr => GlobTok.cls nbr.1 (rangesOf nbr.2.1) :: parseGlob nbr.2.2
      | none => GlobTok.lit '[' :: parseGlob ps
  | c :: ps => GlobTok.lit c :: parseGlob ps
termination_by pat.length
decreasing_by
  all_goals simp only [List.length_cons]
  all_goals try omega
  all_goals have := parseClass_rest_length _ _ h
  all_goals omega

/-- Match a token list against a string, with the usual backtracking for
`*`. -/
def tokMatch : List GlobTok → Str → Bool
  | [], s => s.isEmpty
  | GlobTok.star :: ts, [] => tokMatch ts []
  | GlobTok.star :: ts, c :: s => tokMatch ts (c :: s) || tokMatch (GlobTok.star :: ts) s
  | GlobTok.anyChar :: _, [] => false
  | GlobTok.anyChar :: ts, _ :: s => tokMatch ts s
  | GlobTok.lit _ :: _, [] => false
  | GlobTok.lit p :: ts, c :: s => (p == c) && tokMatch ts s
  | GlobTok.cls _ _ :: _, [] => false
  | GlobTok.cls neg rs :: ts, c :: s => (inRanges rs c != neg) && tokMatch ts s
termination_by ts s => (ts.length, s.length)

/-- Embeds `fnmatch.fnmatch(filename, pattern)` (POSIX: no case folding). -/
def fnmatch (filename pattern : Str) : Bool :=
  tokMatch (parseGlob pattern) filename

/-! ## Ignore filtering (`Builder.filter_files`, builder.py lines 303-319)

```
def filter_files(self, files, config):
    patterns = config.merged_get("ignore_files")
    if patterns is None:
        patterns = self.default_ignores

    result = []
    for filename in files:
        for pattern in patterns:
            if pattern[0] == "!":
                if fnmatch(filename, pattern[1:]):
                    result.append(filename)
                    break
            elif fnmatch(filename, pattern):
                break
        else:
            result.append(filename)
    return result
```
The effective pattern list (merged from the config tree, or
`default_ignores`) is taken as an argument.  Note `pattern[0]` raises
`IndexError` on an empty pattern, so the embedding is faithful only for
non-empty patterns; the theorems below carry that hypothesis. -/

/-- Embeds `Builder.default_ignores`. -/
def default_ignores : List Str :=
  [".*".toList, "_*".toList, "*.yml".toList, "Makefile".toList,
   "README".toList, "*.conf".toList]

/-- The inner `for pattern in patterns` loop of `filter_files` for one
filename: `true` means the filename is appended to the result
(`pattern[0] == "!"` is `head? = some '!'` and `pattern[1:]` is
`drop 1`). -/
def fileKept (patterns : List Str) (filename : Str) : Bool :=
  match patterns with
  | [] => true
  | p :: ps =>
      if p.head? = some '!' then
        if fnmatch filename (p.drop 1) then true else fileKept ps filename
      else
        if fnmatch filename p then false else fileKept ps filename

/-- Embeds `Builder.filter_files` over an explicit effective pattern list. -/
def filter_files (files : List Str) (patterns : List Str) : List Str :=
  files.filter (fileKept patterns)

/-! ## Program dispatch (`Builder.guess_program`, builder.py lines 321-326)

```
def guess_program(self, config, filename):
    mapping = config.list_entries("programs") or self.default_programs
    for pattern, program_name in mapping.items():
        if fnmatch(filename, pattern):
            return program_name
    return "copy"
```
`config.list_entries` comes from the config module, which only supplies the
mapping; the mapping (an insertion-ordered dict) is embedded as an
association list, the empty list standing for the Python-falsy values
(`None` or an empty dict) that make `or` fall back to `default_programs`. -/

/-- Embeds `Builder.default_programs` (an insertion-ordered dict). -/
def default_programs : List (Str × String) :=
  [("*.html".toList, "html"), ("*.md".toList, "md"), ("*.scss".toList, "scss")]

/-- The `for pattern, program_name in mapping.items()` loop of
`guess_program`. -/
def guessLoop : List (Str × String) → Str → String
  | [], _ => "copy"
  | (pattern, program_name) :: rest, filename =>
      if fnmatch filename pattern then program_name else guessLoop rest filename

/-- Embeds `Builder.guess_program` over the config-supplied mapping (empty standing
for a missing or empty `programs` section, which Python's `or` replaces by
`default_programs`). -/
def guess_program (entries : List (Str × String)) (filename : Str) : String :=
  let mapping := if entries.isEmpty then default_programs else entries
  guessLoop mapping filename

/-! ## POSIX path helpers (`os.path.split`, `os.path.splitext`,
`os.path.join` as used by `programs.py`)

`posixpath.split(p)` cuts at the last slash, stripping trailing slashes
from the head unless the head is empty or all slashes.  `posixpath.splitext`
cuts the extension at the last dot, provided that dot comes after the last
slash and the basename is not made only of leading dots.
`posixpath.join(a, b)` inserts a `/` unless `a` is empty or already ends in
one (and an absolute `b` replaces `a`). -/

/-- Strip trailing `/` characters. -/
def rstripSlashes (l : Str) : Str :=
  (l.reverse.dropWhile (fun c => c == '/')).reverse

/-- Embeds `os.path.split` (posixpath). -/
def osPathSplit (p : Str) : Str × Str :=
  let tail := (p.reverse.takeWhile (fun c => c != '/')).reverse
  let head := (p.reverse.dropWhile (fun c => c != '/')).reverse
  let head :=
    if head.isEmpty then head
    else if head.all (fun c => c == '/') then head
    else rstripSlashes head
  (head, tail)

/-- Embeds `os.path.splitext` (posixpath): cut at the last dot, provided it comes
after the last slash and the basename does not consist only of leading
dots. -/
def osPathSplitext (p : Str) : Str × Str :=
  let r := p.reverse
  let extRev := r.takeWhile fun c => c != '.' && c != '/'
  let rest := r.dropWhile fun c => c != '.' && c != '/'
  if rest.head? = some '.' then
    let r2 := rest.tail
    if (r2.takeWhile fun c => c != '/').any fun c => c != '.' then
      (r2.reverse, '.' :: extRev.reverse)
    else (p, [])
  else (p, [])

/-- Embeds `os.path.join` (posixpath) on two components. -/
def osPathJoin (a b : Str) : Str :=
  if b.head? = some '/' then b
  else if a = [] ∨ a.getLast? = some '/' then a ++ b
  else a ++ '/' :: b

/-- Python `s.replace(old, new)`: replace every non-overlapping occurrence
of `old`, scanning left to right.  (Never called with an empty `old` in
this code base; the empty-`old` case keeps `s`.) -/
def pyReplace (s old new : Str) : Str :=
  match s with
  | [] => []
  | c :: rest =>
      if h : old ≠ [] ∧ old.isPrefixOf (c :: rest) then
        new ++ pyReplace ((c :: rest).drop old.length) old new
      else c :: pyReplace rest old new
termination_by s.length
decreasing_by
  · have hlen : 0 < old.length := List.length_pos.mpr h.1
    simp only [List.length_cons, List.length_drop]
    omega
  · simp only [List.length_cons]
    omega

/-! ## Destination filenames (`programs.py`, `get_desired_filename`)

```
class Program:
    def get_desired_filename(self):
        folder, basename = os.path.split(self.context.source_filename)
        simple_name = os.path.splitext(basename)[0]
        if simple_name == 'index':
            suffix = 'index.html'
        else:
            suffix = os.path.join(simple_name, 'index.html')
        return os.path.join(folder, suffix)

class CopyProgram(Program):
    def get_desired_filename(self):
        return self.context.source_filename

class SCSSProgram(Program):
    def get_desired_filename(self):
        return self.context.source_filename.replace('scss', 'css')
```
`HTMLProgram`, `RSTProgram` and `MarkdownProgram` (the structured-markup
programs, via `TemplatedProgram`) inherit the base `Program` method. -/

/-- Embeds `Program.get_desired_filename` (programs.py lines 51-58), used by the
structured-markup programs. -/
def program_get_desired_filename (source_filename : Str) : Str :=
  let fb := osPathSplit source_filename
  let simple_name := (osPathSplitext fb.2).1
  let suffix :=
    if simple_name = "index".toList then "index.html".toList
    else osPathJoin simple_name "index.html".toList
  osPathJoin fb.1 suffix

/-- Embeds `CopyProgram.get_desired_filename` (programs.py lines 78-79). -/
def copy_get_desired_filename (source_filename : Str) : Str :=
  source_filename

/-- Embeds `SCSSProgram.get_desired_filename` (programs.py lines 90-91):
`source_filename.replace('scss', 'css')`. -/
def scss_get_desired_filename (source_filename : Str) : Str :=
  pyReplace source_filename "scss".toList "css".toList

/-! ## Front-matter header loading (`TemplatedProgram.load_header`,
programs.py lines 112-126)

```
def load_header(self, f):
    headers = []
    while True:
        line = f.readline().rstrip()
        if not headers and line == HEADER_LIMIT:
            # Skip opening limit
            continue
        if not line or line == HEADER_LIMIT:
            break
        headers.append(line)
    cfg = yaml.load(StringIO('\n'.join(headers)))
    if cfg and not isinstance(cfg, dict):
        raise ValueError('expected dict config ...')
    return cfg
```
with `HEADER_LIMIT = "---"`.  A file is embedded as its list of lines
(without trailing newlines; `readline` past the end returns `""`, which the
`not line` test treats like a blank line, so EOF and a blank line coincide
after `rstrip`).  The body subsequently read by `prepare` via `f.read()` is
the remaining lines. -/

/-- Python `str.isspace` characters relevant to `rstrip`. -/
def isPySpace (c : Char) : Bool :=
  c == ' ' || c == '\t' || c == '\n' || c == '\r' || c == '\x0b' || c == '\x0c'

/-- Python `line.rstrip()`. -/
def pyRstrip (l : Str) : Str :=
  (l.reverse.dropWhile isPySpace).reverse

/-- Python `line.lstrip()`. -/
def pyLstrip (l : Str) : Str :=
  l.dropWhile isPySpace

/-- Python `line.strip()`. -/
def pyStrip (l : Str) : Str :=
  pyRstrip (pyLstrip l)

/-- Embeds `HEADER_LIMIT` (programs.py line 37). -/
def headerLimit : Str :=
  "---".toList

/-- The `while True` line-scanning loop of `load_header`: returns the
collected header lines and the unconsumed remainder of the file. -/
def loadHeaderLoop (headers : List Str) : List Str → List Str × List Str
  | [] => (headers, [])
  | l :: rest =>
      let line := pyRstrip l
      if headers = [] ∧ line = headerLimit then loadHeaderLoop headers rest
      else if line = [] ∨ line = headerLimit then (headers, rest)
      else loadHeaderLoop (headers ++ [line]) rest

/-- A YAML value of the flat shapes taken by this code base's front-matter
headers: a plain scalar string, or a one-level mapping with string values. -/
inductive YamlVal
  | str (s : String)
  | dict (entries : List (String × String))
deriving DecidableEq, Repr

/-- Model of PyYAML's `yaml.load` restricted to the flat header shapes this
code base feeds it: comment (`#`) and blank lines are ignored; no remaining
content loads as Python `None`; a single line holding only the empty flow
mapping (an opening curly brace directly followed by a closing one) loads
as the empty mapping; lines that all have a `key: value` shape load as a
mapping; any other remaining content loads as a plain string scalar (PyYAML
folds consecutive plain lines into one multi-line scalar). -/
def yamlLoad (lines : List Str) : Option YamlVal :=
  let significant :=
    lines.filter fun l => !((pyLstrip l).head? = some '#' || (pyStrip l).isEmpty)
  if significant.isEmpty then none
  else if significant.map pyStrip = [['{', '}']] then some (YamlVal.dict [])
  else if significant.all fun l => l.contains ':' then
    some (YamlVal.dict (significant.map fun l =>
      (String.mk (pyStrip (l.takeWhile fun c => c ≠ ':')),
       String.mk (pyStrip ((l.dropWhile fun c => c ≠ ':').drop 1)))))
  else
    some (YamlVal.str (String.mk ((significant.intersperse " ".toList).flatten)))

/-- Python truthiness of the value returned by `yaml.load`: `None`, the
empty string and the empty mapping are falsy. -/
def yamlTruthy : Option YamlVal → Bool
  | none => false
  | some (YamlVal.str s) => !s.isEmpty
  | some (YamlVal.dict d) => !d.isEmpty

/-- Embeds `isinstance(cfg, dict)`. -/
def yamlIsDict : Option YamlVal → Bool
  | some (YamlVal.dict _) => true
  | _ => false

/-- Embeds `cfg.get(key)` on a loaded header mapping (`None` on anything else). -/
def yamlGet (cfg : Option YamlVal) (key : String) : Option String :=
  match cfg with
  | some (YamlVal.dict d) => d.lookup key
  | _ => none

/-- Python exceptions that `programs.py` can raise on these paths: the
explicit `ValueError` of `load_header`, the `UnboundLocalError` of reading
an unassigned local, and the `AttributeError` of calling a method (such as
`.get`) on a value that lacks it. -/
inductive PyErr
  | valueError (msg : String)
  | unboundLocalError (var : String)
  | attributeError (attr : String)
deriving DecidableEq, Repr

/-- Embeds `TemplatedProgram.load_header` on a file given as its lines: the scan
loop, the YAML load of the collected lines, and the
`if cfg and not isinstance(cfg, dict): raise ValueError` check.  Returns
the loaded configuration and the unconsumed lines (the body that `prepare`
then reads with `f.read()`). -/
def load_header (file : List Str) : Except PyErr (Option YamlVal × List Str) :=
  let hs := loadHeaderLoop [] file
  let cfg := yamlLoad hs.1
  if yamlTruthy cfg && !yamlIsDict cfg then
    Except.error (PyErr.valueError "expected dict config")
  else
    Except.ok (cfg, hs.2)

/-! ## `HTMLProgram.prepare` (programs.py lines 157-167) and
`TemplatedProgram.load_body` (programs.py lines 144-150)

```
def load_body(self, f, cfg):
    body = f.read()
    if cfg.get("jinja"):
        tmpl = Template(body)
        body = tmpl.render(**cfg)
    return body

def prepare(self):
    with open(self.context.full_source_filename) as f:
        cfg = self.load_header(f)
        self.context.html = self.load_body(f, cfg)

    if cfg:
        self.process_header(cfg)
        title = cfg.get('title')

    if title is not None:
        self.context.title = title
```
`load_body` runs before the title logic and calls `cfg.get("jinja")`
unconditionally: when the header is absent, `load_header` returns `None`
(or an empty scalar) and CPython raises `AttributeError` right there.  Only
when `cfg` is a mapping does control reach the title logic, where the local
`title` is assigned solely inside the `if cfg:` branch yet read
unconditionally afterwards: for a falsy mapping (the empty mapping) CPython
raises `UnboundLocalError` at `if title is not None`.  The embedding models
the local as `Option (Option String)`: `none` is "unbound".  On success the
function returns the final `context.title` (whose default, set in
`Context.__init__`, is `"Untitled"`). -/

/-- Embeds `TemplatedProgram.load_body` (programs.py lines 144-150): reads
the rest of the file and consults `cfg.get("jinja")`.  Only a mapping has
`.get`: for the falsy non-mapping values `load_header` can hand over
(`None` from an absent or comment-only header, an empty scalar), CPython
raises `AttributeError` here.  The Jinja rendering behind a truthy `jinja`
flag is an external collaborator; the model returns the body unchanged. -/
def load_body (cfg : Option YamlVal) (body : List Str) :
    Except PyErr (List Str) :=
  match cfg with
  | some (YamlVal.dict _) => Except.ok body
  | _ => Except.error (PyErr.attributeError "get")

/-- The tail of `HTMLProgram.prepare` after `load_header` and `load_body`:
the `if cfg:` branch and the unconditional read of the local `title`. -/
def html_prepare_title (cfg : Option YamlVal) : Except PyErr String :=
  let titleVar : Option (Option String) :=
    if yamlTruthy cfg then some (yamlGet cfg "title") else none
  match titleVar with
  | none => Except.error (PyErr.unboundLocalError "title")
  | some (some t) => Except.ok t
  | some none => Except.ok "Untitled"

/-- Embeds `HTMLProgram.prepare` on a file given as its lines, returning the
final `context.title`: `load_header`, then `load_body` (whose
`cfg.get("jinja")` can raise), then the title logic. -/
def html_prepare (file : List Str) : Except PyErr String :=
  match load_header file with
  | Except.error e => Except.error e
  | Except.ok (cfg, body) =>
      match load_body cfg body with
      | Except.error e => Except.error e
      | Except.ok _html => html_prepare_title cfg

/-! ## URL routing (`Builder.register_url` and `Builder.link_to`,
builder.py lines 264-265 and 280-285)

`register_url` adds `Rule(rule, endpoint=key)` to a werkzeug `Map`;
`link_to(key, **values)` is `url_adapter.build(key, values)`.  Werkzeug is
an external collaborator, so its rule syntax and build behavior are
modelled from the spec: a rule is a pattern with `<name>` placeholders
(optionally `<converter:name>`); building substitutes each placeholder from
the supplied parameters and raises a `BuildError` when a required parameter
is missing.  The adapter is bound with `script_name` equal to the canonical
URL's path, `"/"` for a root-mounted site, under which `build` returns the
substituted pattern itself. -/

/-- One element of a parsed rule pattern: a literal character or a `<name>`
placeholder. -/
inductive Seg
  | lit (c : Char)
  | param (name : String)
deriving DecidableEq, Repr

theorem length_dropWhile_le (p : Char → Bool) :
    ∀ l : Str, (l.dropWhile p).length ≤ l.length := by
  intro l
  induction l with
  | nil => simp
  | cons c cs ih =>
    simp only [List.dropWhile]
    by_cases hc : p c
    · rw [hc]
      simp only [List.length_cons]
      omega
    · rw [Bool.not_eq_true] at hc
      rw [hc]

/-- Modelled from the spec: werkzeug's rule-pattern syntax — `<name>` (or
`<converter:name>`) is a placeholder, everything else is literal. -/
def parseRule : Str → List Seg
  | [] => []
  | '<' :: rest =>
      let inner := rest.takeWhile fun c => c != '>'
      let after := (rest.dropWhile fun c => c != '>').drop 1
      let pname :=
        if inner.contains ':' then (inner.reverse.takeWhile fun c => c != ':').reverse
        else inner
      Seg.param (String.mk pname) :: parseRule after
  | c :: rest => Seg.lit c :: parseRule rest
termination_by l => l.length
decreasing_by
  · have h1 := length_dropWhile_le (fun c => c != '>') rest
    simp only [List.length_cons, List.length_drop]
    omega
  · simp only [List.length_cons]
    omega

/-- A registered route map: endpoint name to parsed rule pattern. -/
abbrev RouteMap := List (String × List Seg)

/-- Embeds `Builder.register_url(key, rule)` without a config override: add the
rule under the endpoint name. -/
def register_url (m : RouteMap) (key : String) (rule : Str) : RouteMap :=
  m ++ [(key, parseRule rule)]

/-- Modelled from the spec: building a path from a parsed rule — substitute
each placeholder from the parameters, failing with the name of the first
missing required parameter (werkzeug's `BuildError`). -/
def buildSegs (segs : List Seg) (values : List (String × String)) : Except String Str :=
  match segs with
  | [] => Except.ok []
  | Seg.lit c :: rest => (buildSegs rest values).map fun s => c :: s
  | Seg.param n :: rest =>
      match values.lookup n with
      | none => Except.error n
      | some v => (buildSegs rest values).map fun s => v.toList ++ s

/-- Embeds `Builder.link_to(key, **values)`: look the endpoint up in the route map
and build the path. -/
def link_to (m : RouteMap) (key : String) (values : List (String × String)) :
    Except String Str :=
  match m.find? (fun r => r.1 = key) with
  | none => Except.error key
  | some r => buildSegs r.2 values

/-- The spec-side description of a successful build: the pattern with every
placeholder replaced by the supplied parameter value. -/
def substSegs (segs : List Seg) (values : List (String × String)) : Str :=
  (segs.map fun s =>
    match s with
    | Seg.lit c => [c]
    | Seg.param n => ((values.lookup n).getD "").toList).flatten

/-! # Theorems -/

/-! ## C1 — staleness -/

/-- C1: `needs_build` is true iff the destination artifact does not exist,
or the destination's mtime precedes the source's, or the sidecar metadata
file exists and the destination's mtime precedes the sidecar's; and in
particular (closed instance) a sidecar newer than the destination forces a
rebuild even when the source itself is older than the destination. -/
theorem needs_build_iff :
    (∀ t : FileTimes,
        needs_build t = true ↔
          (t.destExists = false ∨ t.destMtime < t.srcMtime ∨
            (t.metadataExists = true ∧ t.destMtime < t.metadataMtime))) ∧
    needs_build ⟨true, 5, 3, true, 7⟩ = true := by
  constructor
  · intro t
    rcases t with ⟨de, dm, sm, me, mm⟩
    simp only [needs_build, is_new]
    cases de <;> cases me <;> simp <;> omega
  · decide

/-! ## C8 — module storage -/

/-- C8: a build pass clears all module storage before any file is processed
(the resulting storage is independent of whatever a previous pass left
behind), and a module's write through its own storage is invisible under
every other module name while being appended under its own name. -/
theorem storage_cleared_and_separated :
    (∀ (α : Type) (handler : Event → Storage α → Storage α)
        (prior prior2 : Storage α) (files : List SFile),
        runPassStorage handler prior files = runPassStorage handler prior2 files) ∧
    (∀ (α : Type) (st : Storage α) (m m2 k : String) (v : α), m ≠ m2 →
        getStorage (setStorageKey st m k v) m2 = getStorage st m2) ∧
    (∀ (α : Type) (st : Storage α) (m k : String) (v : α),
        getStorage (setStorageKey st m k v) m = (k, v) :: getStorage st m) := by
  refine ⟨fun α handler prior prior2 files => rfl, ?_, ?_⟩
  · intro α st m m2 k v hne
    induction st with
    | nil =>
      simp only [setStorageKey, getStorage]
      rw [if_neg hne]
    | cons hd tl ih =>
      obtain ⟨mh, dh⟩ := hd
      simp only [setStorageKey]
      by_cases h1 : mh = m
      · subst h1
        simp only [if_pos rfl, getStorage]
        rw [if_neg hne, if_neg hne]
      · rw [if_neg h1]
        simp only [getStorage]
        by_cases h2 : mh = m2
        · rw [if_pos h2, if_pos h2]
        · rw [if_neg h2, if_neg h2, ih]
  · intro α st m k v
    induction st with
    | nil => simp [setStorageKey, getStorage]
    | cons hd tl ih =>
      obtain ⟨mh, dh⟩ := hd
      simp only [setStorageKey]
      by_cases h1 : mh = m
      · subst h1
        simp [getStorage]
      · rw [if_neg h1]
        simp only [getStorage]
        rw [if_neg h1, if_neg h1, ih]

/-- Witness for C8 at concrete inputs. -/
theorem storage_cleared_and_separated_witness :
    getStorage (setStorageKey [("tags", [("a", 1)])] "blog" "k" 2) "tags" =
        [("a", 1)] ∧
    getStorage (setStorageKey [("tags", [("a", 1)])] "blog" "k" 2) "blog" =
        [("k", 2)] := by
  constructor
  · rw [storage_cleared_and_separated.2.1 Nat [("tags", [("a", 1)])] "blog" "tags" "k" 2
      (by decide)]
    rfl
  · rw [storage_cleared_and_separated.2.2 Nat [("tags", [("a", 1)])] "blog" "k" 2]
    rfl

/-! ## C4 — program dispatch -/

/-- The spec-side description of dispatch: the program name of the first
pattern in mapping iteration order matching the filename, defaulting to
`"copy"`. -/
def specGuessProgram (mapping : List (Str × String)) (filename : Str) : String :=
  ((mapping.find? fun pr => fnmatch filename pr.1).map Prod.snd).getD "copy"

theorem guessLoop_eq_find (mapping : List (Str × String)) (filename : Str) :
    guessLoop mapping filename = specGuessProgram mapping filename := by
  induction mapping with
  | nil => rfl
  | cons pr rest ih =>
    obtain ⟨pat, name⟩ := pr
    simp only [guessLoop, specGuessProgram]
    by_cases h : fnmatch filename pat = true
    · have hf : List.find? (fun pr => fnmatch filename pr.1) ((pat, name) :: rest) =
          some (pat, name) := List.find?_cons_of_pos _ (by simpa using h)
      rw [if_pos h, hf]
      rfl
    · have hf : List.find? (fun pr => fnmatch filename pr.1) ((pat, name) :: rest) =
          List.find? (fun pr => fnmatch filename pr.1) rest :=
        List.find?_cons_of_neg _ (by simpa using h)
      rw [if_neg h, hf, ih]
      rfl

/-- C4: for every mapping (the config-supplied one, or `default_programs`
when the config supplies none — Python's falsy `or`) and every filename,
`guess_program` returns the program name of the first pattern in mapping
iteration order matching the filename, and `"copy"` when none matches. -/
theorem guess_program_first_match (entries : List (Str × String)) (filename : Str) :
    guess_program entries filename =
      specGuessProgram (if entries.isEmpty then default_programs else entries)
        filename := by
  simp only [guess_program]
  exact guessLoop_eq_find _ _

/-! ## C5 — ignore filtering -/

/-- Whether a pattern from the ignore list matches a filename: a negation
pattern matches through its bare pattern (`pattern[1:]`), a plain pattern
directly. -/
def patternMatches (f : Str) (p : Str) : Bool :=
  if p.head? = some '!' then fnmatch f (p.drop 1) else fnmatch f p

/-- The first-match-wins keep decision: keep the filename iff no pattern
matches it or the first matching pattern is a negation pattern. -/
def firstMatchKept (patterns : List Str) (f : Str) : Bool :=
  match patterns.find? (patternMatches f) with
  | none => true
  | some p => p.head? = some '!'

/-- The keep decision as claimed by the spec sentence: keep iff the
filename matches some negation pattern (force-include) or matches no
non-negation pattern. -/
def claimKept (patterns : List Str) (f : Str) : Bool :=
  (patterns.any fun p => p.head? = some '!' && fnmatch f (p.drop 1)) ||
  !(patterns.any fun p => !(p.head? = some '!' : Bool) && fnmatch f p)

/-- C5 counterexample: with patterns `["*.tmp", "!keep.tmp"]`, the filename
`keep.tmp` matches the negation pattern, so the claimed semantics
force-include it, but `filter_files` drops it — the first matching pattern
wins, so an exclusion listed before the negation prevails. -/
theorem filter_files_counterexample :
    claimKept ["*.tmp".toList, "!keep.tmp".toList] "keep.tmp".toList = true ∧
    filter_files ["keep.tmp".toList] ["*.tmp".toList, "!keep.tmp".toList] = [] := by
  constructor
  · simp [claimKept, patternMatches, fnmatch, parseGlob, tokMatch, parseClass,
      classAfterBang, classBody, findClose]
  · simp [filter_files, fileKept, fnmatch, parseGlob, tokMatch, parseClass,
      classAfterBang, classBody, findClose]

theorem fileKept_eq_firstMatchKept (patterns : List Str) (f : Str) :
    fileKept patterns f = firstMatchKept patterns f := by
  induction patterns with
  | nil => rfl
  | cons p ps ih =>
    simp only [fileKept, firstMatchKept]
    by_cases h1 : p.head? = some '!'
    · rw [if_pos h1]
      by_cases h2 : fnmatch f (p.drop 1) = true
      · have hf : List.find? (patternMatches f) (p :: ps) = some p :=
          List.find?_cons_of_pos _
            (by simp only [patternMatches, h1, if_pos rfl]
                simpa [List.drop_one] using h2)
        rw [if_pos h2, hf]
        simp [h1]
      · have hf : List.find? (patternMatches f) (p :: ps) =
            List.find? (patternMatches f) ps :=
          List.find?_cons_of_neg _
            (by simp only [patternMatches, h1, if_pos rfl]
                simpa [List.drop_one] using h2)
        rw [if_neg h2, hf, ih]
        rfl
    · rw [if_neg h1]
      by_cases h2 : fnmatch f p = true
      · have hf : List.find? (patternMatches f) (p :: ps) = some p :=
          List.find?_cons_of_pos _ (by simp [patternMatches, h1, h2])
        rw [if_pos h2, hf]
        simp [h1]
      · have hf : List.find? (patternMatches f) (p :: ps) =
            List.find? (patternMatches f) ps :=
          List.find?_cons_of_neg _ (by simp [patternMatches, h1, h2])
        rw [if_neg h2, hf, ih]
        rfl

/-- C5 amended: filtering is first-match-wins — a filename is kept iff no
pattern matches it or the first pattern matching it (negation patterns
matching via their bare pattern) is a negation pattern; a negation pattern
force-includes only against exclusions listed after it.  (The hypothesis
keeps the statement within the faithful domain: Python raises `IndexError`
on an empty ignore pattern.) -/
theorem filter_files_first_match (files patterns : List Str)
    (hne : ∀ p ∈ patterns, p ≠ []) :
    filter_files files patterns = files.filter (firstMatchKept patterns) := by
  unfold filter_files
  have h : fileKept patterns = firstMatchKept patterns :=
    funext fun f => fileKept_eq_firstMatchKept patterns f
  rw [h]

/-- Witness for C5 at concrete inputs: the negation listed first does
force-include against a later exclusion. -/
theorem filter_files_first_match_witness :
    (∀ p ∈ ["!keep.tmp".toList, "*.tmp".toList], p ≠ []) ∧
    filter_files ["keep.tmp".toList, "old.tmp".toList]
        ["!keep.tmp".toList, "*.tmp".toList] =
      ["keep.tmp".toList, "old.tmp".toList].filter
        (firstMatchKept ["!keep.tmp".toList, "*.tmp".toList]) ∧
    filter_files ["keep.tmp".toList, "old.tmp".toList]
        ["!keep.tmp".toList, "*.tmp".toList] = ["keep.tmp".toList] := by
  refine ⟨by decide, filter_files_first_match _ _ (by decide), ?_⟩
  simp [filter_files, fileKept, fnmatch, parseGlob, tokMatch, parseClass,
    classAfterBang, classBody, findClose]

/-! ## C7 — URL routing -/

theorem buildSegs_ok (segs : List Seg) (values : List (String × String))
    (h : (segs.all fun s =>
        match s with
        | Seg.param n => (values.lookup n).isSome
        | Seg.lit _ => true) = true) :
    buildSegs segs values = Except.ok (substSegs segs values) := by
  induction segs with
  | nil => rfl
  | cons s rest ih =>
    rw [List.all_cons] at h
    obtain ⟨hs, hrest⟩ := Bool.and_eq_true_iff.mp h
    cases s with
    | lit c =>
      simp only [buildSegs, substSegs, List.map_cons, List.flatten_cons, ih hrest]
      rfl
    | param n =>
      simp only [buildSegs]
      obtain ⟨v, hv⟩ := Option.isSome_iff_exists.mp hs
      rw [hv]
      simp only [ih hrest, Except.map]
      simp [substSegs, hv]

theorem buildSegs_missing (segs : List Seg) (values : List (String × String))
    (n : String) (hmem : Seg.param n ∈ segs) (hmiss : values.lookup n = none) :
    ∃ e, buildSegs segs values = Except.error e := by
  induction segs with
  | nil => cases hmem
  | cons s rest ih =>
    cases s with
    | lit c =>
      have hm : Seg.param n ∈ rest := by
        rcases List.mem_cons.mp hmem with h | h
        · cases h
        · exact h
      obtain ⟨e, he⟩ := ih hm
      exact ⟨e, by simp [buildSegs, he, Except.map]⟩
    | param m =>
      by_cases hmn : (values.lookup m).isSome = true
      · obtain ⟨v, hv⟩ := Option.isSome_iff_exists.mp hmn
        have hm : Seg.param n ∈ rest := by
          rcases List.mem_cons.mp hmem with h | h
          · injection h with h
            subst h
            rw [hmiss] at hv
            cases hv
          · exact h
        obtain ⟨e, he⟩ := ih hm
        exact ⟨e, by simp [buildSegs, hv, he, Except.map]⟩
      · rw [Option.not_isSome_iff_eq_none] at hmn
        exact ⟨m, by simp [buildSegs, hmn]⟩

/-- C7: building a registered route with every required placeholder
parameter supplied yields the pattern with the placeholders substituted,
and building with a required parameter missing fails with a routing error
instead of returning a path. -/
theorem route_build_correct :
    (∀ (segs : List Seg) (values : List (String × String)),
        (segs.all fun s =>
            match s with
            | Seg.param n => (values.lookup n).isSome
            | Seg.lit _ => true) = true →
        buildSegs segs values = Except.ok (substSegs segs values)) ∧
    (∀ (segs : List Seg) (values : List (String × String)) (n : String),
        Seg.param n ∈ segs → values.lookup n = none →
        ∃ e, buildSegs segs values = Except.error e) :=
  ⟨buildSegs_ok, buildSegs_missing⟩

/-- Witness for C7: registering route `tag` as `/tags/<tag>/` and building
with `tag="python"` yields `/tags/python/`; building with no parameters
fails with a routing error. -/
theorem route_build_correct_witness :
    link_to (register_url [] "tag" "/tags/<tag>/".toList) "tag" [("tag", "python")] =
        Except.ok "/tags/python/".toList ∧
    ∃ e, link_to (register_url [] "tag" "/tags/<tag>/".toList) "tag" [] =
        Except.error e := by
  have hparse : parseRule "/tags/<tag>/".toList =
      [Seg.lit '/', Seg.lit 't', Seg.lit 'a', Seg.lit 'g', Seg.lit 's', Seg.lit '/',
       Seg.param "tag", Seg.lit '/'] := by
    simp [parseRule]
  have hlink : ∀ values, link_to (register_url [] "tag" "/tags/<tag>/".toList)
      "tag" values = buildSegs (parseRule "/tags/<tag>/".toList) values := by
    intro values
    simp [link_to, register_url, List.find?]
  constructor
  · rw [hlink, route_build_correct.1 _ [("tag", "python")] (by rw [hparse]; decide)]
    rw [hparse]
    exact congrArg Except.ok (by decide)
  · obtain ⟨e, he⟩ := route_build_correct.2 (parseRule "/tags/<tag>/".toList) [] "tag"
      (by rw [hparse]; decide) (by decide)
    exact ⟨e, by rw [hlink, he]⟩



/-! ## C2 — lifecycle events vs. staleness -/

/-- C2 counterexample: with `a.md` (needs build) and `b.md` (up to date,
public) in that directory order, the up-to-date `b.md` still receives
events — `Context.__init__` runs `prepare()` and sends `after_file_prepared`
and `after_file_published` during discovery for every file, stale or not.
A subscriber counting publish events observes one event for `b.md` (and two
in total), not zero. -/
theorem events_for_up_to_date_counterexample :
    countPublished "b.md" (builderRunEvents
        [⟨"a.md", true, true⟩, ⟨"b.md", false, true⟩]) = 1 ∧
    countEventsFor "b.md" (builderRunEvents
        [⟨"a.md", true, true⟩, ⟨"b.md", false, true⟩]) = 2 := by
  decide

theorem countPublished_chunk_ne (g : SFile) (n : String) (h : ¬g.name = n) :
    countPublished n (fileChunkEvents g) = 0 := by
  rcases g with ⟨nm, nb, pb⟩
  simp only [] at h
  cases nb <;> cases pb <;>
    simp [countPublished, fileChunkEvents, contextInitEvents, contextRunEvents,
      List.count_cons, List.count_append, h]

theorem countEventsFor_chunk_ne (g : SFile) (n : String) (h : ¬g.name = n) :
    countEventsFor n (fileChunkEvents g) = 0 := by
  rcases g with ⟨nm, nb, pb⟩
  simp only [] at h
  cases nb <;> cases pb <;>
    simp [countEventsFor, fileChunkEvents, contextInitEvents, contextRunEvents,
      List.countP_cons, List.countP_append, h]

theorem countPublished_chunk_self (g : SFile) :
    countPublished g.name (fileChunkEvents g) = if g.public then 1 else 0 := by
  rcases g with ⟨nm, nb, pb⟩
  cases nb <;> cases pb <;>
    simp [countPublished, fileChunkEvents, contextInitEvents, contextRunEvents,
      List.count_cons, List.count_append]

theorem countEventsFor_chunk_self (g : SFile) :
    countEventsFor g.name (fileChunkEvents g) =
      (if g.public then 2 else 1) + (if g.needsBuild then 2 else 0) := by
  rcases g with ⟨nm, nb, pb⟩
  cases nb <;> cases pb <;>
    simp [countEventsFor, fileChunkEvents, contextInitEvents, contextRunEvents,
      List.countP_cons, List.countP_append]

theorem builderRunEvents_cons (g : SFile) (fs : List SFile) :
    builderRunEvents (g :: fs) = fileChunkEvents g ++ builderRunEvents fs := by
  simp [builderRunEvents, List.append_assoc]

theorem countPublished_run_not_mem (fs : List SFile) (n : String)
    (h : n ∉ fs.map SFile.name) : countPublished n (builderRunEvents fs) = 0 := by
  induction fs with
  | nil => simp [builderRunEvents, countPublished]
  | cons g gs ih =>
    rw [builderRunEvents_cons]
    simp only [List.map_cons, List.mem_cons, not_or] at h
    rw [countPublished, List.count_append]
    have h1 := countPublished_chunk_ne g n fun hg => h.1 hg.symm
    have h2 := ih h.2
    rw [countPublished] at h1
    rw [countPublished] at h2
    omega

theorem countEventsFor_run_not_mem (fs : List SFile) (n : String)
    (h : n ∉ fs.map SFile.name) : countEventsFor n (builderRunEvents fs) = 0 := by
  induction fs with
  | nil => simp [builderRunEvents, countEventsFor]
  | cons g gs ih =>
    rw [builderRunEvents_cons]
    simp only [List.map_cons, List.mem_cons, not_or] at h
    rw [countEventsFor, List.countP_append]
    have h1 := countEventsFor_chunk_ne g n fun hg => h.1 hg.symm
    have h2 := ih h.2
    rw [countEventsFor] at h1
    rw [countEventsFor] at h2
    omega

/-- C2 amended: during a build pass the post-prepare event fires once for
every discovered file and the post-publish event once for every public
discovered file, regardless of staleness; only the run-phase events
(pre-process and pre-build) are restricted to files that need building —
an up-to-date public file accounts for exactly 2 events (prepared and
published), a stale one for 2 more.  In the `a.md`/`b.md` scenario a
subscriber counting publish events therefore observes one event for each of
the two files, not only for `a.md`. -/
theorem builder_run_event_counts (files : List SFile) (f : SFile)
    (hmem : f ∈ files) (hnodup : (files.map SFile.name).Nodup) :
    countPublished f.name (builderRunEvents files) = (if f.public then 1 else 0) ∧
    countEventsFor f.name (builderRunEvents files) =
      (if f.public then 2 else 1) + (if f.needsBuild then 2 else 0) := by
  induction files with
  | nil => cases hmem
  | cons g gs ih =>
    rw [List.map_cons, List.nodup_cons] at hnodup
    rcases List.mem_cons.mp hmem with hfg | hf
    · subst hfg
      constructor
      · rw [builderRunEvents_cons, countPublished, List.count_append]
        have h1 := countPublished_chunk_self f
        have h2 := countPublished_run_not_mem gs f.name hnodup.1
        rw [countPublished] at h1 h2
        omega
      · rw [builderRunEvents_cons, countEventsFor, List.countP_append]
        have h1 := countEventsFor_chunk_self f
        have h2 := countEventsFor_run_not_mem gs f.name hnodup.1
        rw [countEventsFor] at h1 h2
        omega
    · have hne : ¬g.name = f.name := by
        intro he
        exact hnodup.1 (he ▸ List.mem_map_of_mem SFile.name hf)
      have hrec := ih hf hnodup.2
      constructor
      · rw [builderRunEvents_cons, countPublished, List.count_append]
        have h1 := countPublished_chunk_ne g f.name hne
        rw [countPublished] at h1
        rw [countPublished] at hrec
        omega
      · rw [builderRunEvents_cons, countEventsFor, List.countP_append]
        have h1 := countEventsFor_chunk_ne g f.name hne
        rw [countEventsFor] at h1
        rw [countEventsFor] at hrec
        omega

/-- Witness for C2 at the spec scenario: the stale public `a.md` gets
exactly one publish event and 4 events in total. -/
theorem builder_run_event_counts_witness :
    countPublished "a.md" (builderRunEvents
        [⟨"a.md", true, true⟩, ⟨"b.md", false, true⟩]) = 1 ∧
    countEventsFor "a.md" (builderRunEvents
        [⟨"a.md", true, true⟩, ⟨"b.md", false, true⟩]) = 4 := by
  have h := builder_run_event_counts
      [⟨"a.md", true, true⟩, ⟨"b.md", false, true⟩] ⟨"a.md", true, true⟩
      (by decide) (by decide)
  exact ⟨h.1.trans (by decide), h.2.trans (by decide)⟩


/-! ## C6 — absence of a front-matter header -/

/-- C6 counterexample: a file whose lines are `Hello`, a blank line and
`body` has no front-matter header block (its first line is not the `---`
delimiter), yet `load_header` still collects the leading lines, YAML-loads
them to the truthy non-mapping scalar `Hello`, and raises the configuration
error — so the absence of a header is not always safe, and the error is not
raised only when a header is present. -/
theorem load_header_headerless_counterexample :
    pyRstrip "Hello".toList ≠ headerLimit ∧
    load_header ["Hello".toList, ([] : Str), "body".toList] =
      Except.error (PyErr.valueError "expected dict config") := by
  exact ⟨by decide, by rfl⟩

theorem loadHeaderLoop_collect (hs rest : List Str) :
    ∀ acc : List Str, (∀ l ∈ hs, pyRstrip l ≠ [] ∧ pyRstrip l ≠ headerLimit) →
      loadHeaderLoop acc (hs ++ ([] : Str) :: rest) =
        (acc ++ hs.map pyRstrip, rest) := by
  induction hs with
  | nil =>
    intro acc _
    simp [loadHeaderLoop, pyRstrip, headerLimit]
  | cons l hs ih =>
    intro acc h
    have hl := h l (List.mem_cons_self l hs)
    simp only [List.cons_append, loadHeaderLoop, List.append_eq]
    rw [if_neg fun hc => hl.2 hc.2, if_neg fun hc => hc.elim hl.1 hl.2,
      ih (acc ++ [pyRstrip l]) fun x hx => h x (List.mem_cons_of_mem l hx)]
    simp

/-- C6 amended: the absence of the `---` delimiter is not by itself an
error, but the file is processed exactly as if the delimiter were present:
the lines up to the first blank line are still collected as header material
(and must YAML-load to a mapping or to nothing, else the configuration
error is raised even though no header block was written), and only the
content after those lines is the body.  A file starting with a blank line
loads an empty configuration with the remaining lines as body. -/
theorem load_header_no_delimiter_needed :
    (∀ rest : List Str, load_header (([] : Str) :: rest) = Except.ok (none, rest)) ∧
    (∀ hs rest : List Str,
        (∀ l ∈ hs, pyRstrip l ≠ [] ∧ pyRstrip l ≠ headerLimit) →
        load_header (hs ++ ([] : Str) :: rest) =
          load_header (headerLimit :: hs ++ ([] : Str) :: rest)) := by
  constructor
  · intro rest
    have hscan := loadHeaderLoop_collect [] rest [] (by intro l hl; cases hl)
    simp only [List.nil_append] at hscan
    simp [load_header, hscan, yamlLoad, yamlTruthy]
  · intro hs rest h
    have hskip : loadHeaderLoop [] (headerLimit :: (hs ++ ([] : Str) :: rest)) =
        loadHeaderLoop [] (hs ++ ([] : Str) :: rest) := by
      simp only [loadHeaderLoop]
      rw [if_pos (by refine ⟨?_, by decide⟩; trivial)]
    simp only [load_header, List.cons_append] at hskip ⊢
    rw [hskip]

/-- Witness for C6 at concrete inputs: a delimiter-less header is loaded
exactly like a delimited one, and a blank-leading file yields the empty
configuration with the rest as body. -/
theorem load_header_no_delimiter_needed_witness :
    load_header [([] : Str), "body".toList] = Except.ok (none, ["body".toList]) ∧
    load_header ["title: Hi".toList, ([] : Str), "body".toList] =
      load_header [headerLimit, "title: Hi".toList, ([] : Str), "body".toList] := by
  refine ⟨load_header_no_delimiter_needed.1 ["body".toList], ?_⟩
  exact load_header_no_delimiter_needed.2 ["title: Hi".toList] ["body".toList]
    (by decide)

/-! ## C10 — how `HTMLProgram.prepare` fails on a falsy header -/

/-- C10 counterexample: for a file with no front-matter header the loaded
configuration is `None`, and `prepare` crashes in `load_body` — whose
unconditional `cfg.get("jinja")` raises `AttributeError` — before the
title logic is ever reached, so it does not fail with an unbound-variable
error as the claim states. -/
theorem html_prepare_absent_header_counterexample :
    yamlLoad (loadHeaderLoop [] [([] : Str), "body".toList]).1 = none ∧
    html_prepare [([] : Str), "body".toList] =
      Except.error (PyErr.attributeError "get") ∧
    html_prepare [([] : Str), "body".toList] ≠
      Except.error (PyErr.unboundLocalError "title") := by
  refine ⟨by decide, by rfl, fun h => ?_⟩
  have h2 : (Except.error (PyErr.attributeError "get") : Except PyErr String) =
      Except.error (PyErr.unboundLocalError "title") := by
    rw [← h]
    rfl
  injection h2 with h3
  exact PyErr.noConfusion h3

/-- C10 amended: for every HTML source file whose front-matter header is
YAML-falsy, `HTMLProgram.prepare` crashes instead of leaving the context's
default title in place, but which error depends on the shape of the falsy
value: when it is a mapping (the empty mapping), control reaches the
unconditional read of the local `title` that no branch has assigned and
fails with the unbound-variable error; when it is not a mapping (absent
header, `None`, an empty scalar), `prepare` fails earlier, with an
attribute error at `load_body`'s `cfg.get("jinja")`. -/
theorem html_prepare_falsy_header_crashes (file : List Str)
    (h : yamlTruthy (yamlLoad (loadHeaderLoop [] file).1) = false) :
    (yamlIsDict (yamlLoad (loadHeaderLoop [] file).1) = true →
      html_prepare file = Except.error (PyErr.unboundLocalError "title")) ∧
    (yamlIsDict (yamlLoad (loadHeaderLoop [] file).1) = false →
      html_prepare file = Except.error (PyErr.attributeError "get")) := by
  have hok : load_header file =
      Except.ok (yamlLoad (loadHeaderLoop [] file).1, (loadHeaderLoop [] file).2) := by
    simp [load_header, h]
  constructor
  · intro hdict
    cases hcfg : yamlLoad (loadHeaderLoop [] file).1 with
    | none => rw [hcfg] at hdict; simp [yamlIsDict] at hdict
    | some v =>
      cases v with
      | str s => rw [hcfg] at hdict; simp [yamlIsDict] at hdict
      | dict d =>
        rw [hcfg] at h
        simp [html_prepare, hok, hcfg, load_body, html_prepare_title, h]
  · intro hnotdict
    cases hcfg : yamlLoad (loadHeaderLoop [] file).1 with
    | none => simp [html_prepare, hok, hcfg, load_body]
    | some v =>
      cases v with
      | str s => simp [html_prepare, hok, hcfg, load_body]
      | dict d => rw [hcfg] at hnotdict; simp [yamlIsDict] at hnotdict

/-- Witness for C10: a header that is the empty flow mapping reaches the
unbound-local error, while an absent header fails in `load_body` with the
attribute error. -/
theorem html_prepare_falsy_header_crashes_witness :
    yamlTruthy (yamlLoad
        (loadHeaderLoop [] [(['{', '}'] : Str), ([] : Str), "body".toList]).1) =
      false ∧
    html_prepare [(['{', '}'] : Str), ([] : Str), "body".toList] =
      Except.error (PyErr.unboundLocalError "title") ∧
    html_prepare [([] : Str), "body".toList] =
      Except.error (PyErr.attributeError "get") := by
  refine ⟨by decide, ?_, ?_⟩
  · exact (html_prepare_falsy_header_crashes _ (by decide)).1 (by decide)
  · exact (html_prepare_falsy_header_crashes _ (by decide)).2 (by decide)


/-! ## C3 — destination filenames -/

theorem takeWhile_append_every (p : Char → Bool) :
    ∀ l1 l2 : Str, (∀ x ∈ l1, p x = true) →
      (l1 ++ l2).takeWhile p = l1 ++ l2.takeWhile p := by
  intro l1
  induction l1 with
  | nil => simp
  | cons a l ih =>
    intro l2 h
    have ha := h a (List.mem_cons_self a l)
    simp only [List.cons_append, List.takeWhile_cons, ha, if_true]
    rw [ih l2 fun x hx => h x (List.mem_cons_of_mem a hx)]

theorem dropWhile_append_every (p : Char → Bool) :
    ∀ l1 l2 : Str, (∀ x ∈ l1, p x = true) →
      (l1 ++ l2).dropWhile p = l2.dropWhile p := by
  intro l1
  induction l1 with
  | nil => simp
  | cons a l ih =>
    intro l2 h
    have ha := h a (List.mem_cons_self a l)
    simp only [List.cons_append, List.dropWhile_cons, ha, if_true]
    exact ih l2 fun x hx => h x (List.mem_cons_of_mem a hx)

theorem osPathSplit_concat (dir base : Str)
    (hdir0 : dir ≠ []) (hdirlast : dir.getLast? ≠ some '/') (hbase : '/' ∉ base) :
    osPathSplit (dir ++ '/' :: base) = (dir, base) := by
  have hrev : (dir ++ '/' :: base).reverse = base.reverse ++ '/' :: dir.reverse := by
    simp
  have hbrev : ∀ x ∈ base.reverse, (x != '/') = true := by
    intro x hx
    have hxb : x ∈ base := List.mem_reverse.mp hx
    have hne : x ≠ '/' := fun he => hbase (he ▸ hxb)
    simpa using hne
  have htake : (dir ++ '/' :: base).reverse.takeWhile (fun c => c != '/') =
      base.reverse := by
    rw [hrev, takeWhile_append_every _ _ _ hbrev]
    simp [List.takeWhile_cons]
  have hdrop : (dir ++ '/' :: base).reverse.dropWhile (fun c => c != '/') =
      '/' :: dir.reverse := by
    rw [hrev, dropWhile_append_every _ _ _ hbrev]
    simp [List.dropWhile_cons]
  obtain ⟨c, hc⟩ : ∃ c, dir.getLast? = some c := by
    cases hgl : dir.getLast? with
    | none => exact absurd (List.getLast?_eq_none_iff.mp hgl) hdir0
    | some c => exact ⟨c, rfl⟩
  have hcne : c ≠ '/' := fun he => hdirlast (he ▸ hc)
  have hcmem : c ∈ dir := List.mem_of_mem_getLast? hc
  obtain ⟨t, ht⟩ : ∃ t, dir.reverse = c :: t := by
    cases hr : dir.reverse with
    | nil => exact absurd (List.reverse_eq_nil_iff.mp hr) hdir0
    | cons d t =>
      have hh : dir.reverse.head? = some d := by rw [hr]; rfl
      rw [List.head?_reverse, hc] at hh
      injection hh with hdc
      subst hdc
      exact ⟨t, rfl⟩
  have hne : (dir ++ ['/']).isEmpty = false := by
    cases dir <;> rfl
  have hall : (dir ++ ['/']).all (fun x => x == '/') = false := by
    rw [List.all_eq_false]
    exact ⟨c, List.mem_append_left _ hcmem, by simp [hcne]⟩
  have hstrip : rstripSlashes (dir ++ ['/']) = dir := by
    unfold rstripSlashes
    have h1 : (dir ++ ['/']).reverse = '/' :: dir.reverse := by simp
    rw [h1, List.dropWhile_cons, ht]
    simp only [beq_self_eq_true, if_true, List.dropWhile_cons]
    rw [if_neg (by simp [hcne]), ← ht, List.reverse_reverse]
  simp only [osPathSplit]
  rw [htake, hdrop, List.reverse_reverse]
  have hh2 : ('/' :: dir.reverse).reverse = dir ++ ['/'] := by simp
  rw [hh2, hne, hall, hstrip]
  simp

theorem osPathSplitext_concat (name ext : Str)
    (hname0 : name ≠ []) (hnamedot : '.' ∉ name) (hnameslash : '/' ∉ name)
    (hextdot : '.' ∉ ext) (hextslash : '/' ∉ ext) :
    osPathSplitext (name ++ '.' :: ext) = (name, '.' :: ext) := by
  have hrev : (name ++ '.' :: ext).reverse = ext.reverse ++ '.' :: name.reverse := by
    simp
  have hextall : ∀ x ∈ ext.reverse, ((x != '.') && (x != '/')) = true := by
    intro x hx
    have hxe : x ∈ ext := List.mem_reverse.mp hx
    simp only [Bool.and_eq_true, bne_iff_ne, ne_eq]
    exact ⟨fun he => hextdot (he ▸ hxe), fun he => hextslash (he ▸ hxe)⟩
  have htake : (name ++ '.' :: ext).reverse.takeWhile
      (fun c => c != '.' && c != '/') = ext.reverse := by
    rw [hrev, takeWhile_append_every _ _ _ hextall]
    simp [List.takeWhile_cons]
  have hdrop : (name ++ '.' :: ext).reverse.dropWhile
      (fun c => c != '.' && c != '/') = '.' :: name.reverse := by
    rw [hrev, dropWhile_append_every _ _ _ hextall]
    simp [List.dropWhile_cons]
  have hnr_take : name.reverse.takeWhile (fun c => c != '/') = name.reverse := by
    have hall : ∀ x ∈ name.reverse, (x != '/') = true := by
      intro x hx
      have hxn : x ∈ name := List.mem_reverse.mp hx
      have hne : x ≠ '/' := fun he => hnameslash (he ▸ hxn)
      simpa using hne
    have h2 := takeWhile_append_every (fun c => c != '/') name.reverse [] hall
    simpa using h2
  have hany : name.reverse.any (fun c => c != '.') = true := by
    rw [List.any_eq_true]
    cases name with
    | nil => exact absurd rfl hname0
    | cons a l =>
      refine ⟨a, List.mem_reverse.mpr (List.mem_cons_self a l), ?_⟩
      have hne : a ≠ '.' := fun he => hnamedot (he ▸ List.mem_cons_self a l)
      simpa using hne
  simp only [osPathSplitext]
  rw [htake, hdrop]
  simp only [List.head?_cons, List.tail_cons, if_true]
  rw [hnr_take, hany]
  simp

theorem osPathJoin_sep (a b : Str) (ha0 : a ≠ []) (halast : a.getLast? ≠ some '/')
    (hb : b.head? ≠ some '/') :
    osPathJoin a b = a ++ '/' :: b := by
  simp only [osPathJoin]
  rw [if_neg hb, if_neg]
  intro h
  rcases h with h | h
  · exact ha0 h
  · exact halast h

theorem pyReplace_cons_no_match (old new : Str) (c : Char) (rest : Str)
    (h : ¬(old ≠ [] ∧ old.isPrefixOf (c :: rest) = true)) :
    pyReplace (c :: rest) old new = c :: pyReplace rest old new := by
  rw [pyReplace]
  rw [dif_neg h]

theorem pat_not_prefix_of_append (pat l1 l2 : Str) (a : Char)
    (hinf : ¬ pat <:+: l1) (hmem : a ∉ pat) :
    ¬ (pat <+: l1 ++ a :: l2) := by
  intro hpre
  by_cases hlen : pat.length ≤ l1.length
  · apply hinf
    have h1 : pat = (l1 ++ a :: l2).take pat.length := List.prefix_iff_eq_take.mp hpre
    rw [List.take_append_eq_append_take, Nat.sub_eq_zero_of_le hlen, List.take_zero,
      List.append_nil] at h1
    exact (List.prefix_iff_eq_take.mpr h1).isInfix
  · push_neg at hlen
    obtain ⟨t, ht⟩ := hpre
    have hget : (pat ++ t)[l1.length]? = (l1 ++ a :: l2)[l1.length]? := by rw [ht]
    rw [List.getElem?_append_left hlen,
      List.getElem?_append_right (Nat.le_refl _), Nat.sub_self] at hget
    have hsome : pat[l1.length]? = some a := by
      rw [hget]
      exact List.getElem?_cons_zero
    exact hmem (List.getElem?_mem hsome)

theorem pyReplace_scss_extension :
    ∀ stem : Str, ¬ ("scss".toList <:+: stem) →
      pyReplace (stem ++ ".scss".toList) "scss".toList "css".toList =
        stem ++ ".css".toList := by
  intro stem
  induction stem with
  | nil =>
    intro _
    simp [pyReplace]
  | cons c stem ih =>
    intro hinf
    have hnp : ¬ ("scss".toList <+: ((c :: stem) ++ '.' :: "scss".toList)) :=
      pat_not_prefix_of_append _ _ _ _ hinf (by decide)
    have hcond : ¬ ("scss".toList ≠ [] ∧
        "scss".toList.isPrefixOf (c :: (stem ++ ".scss".toList)) = true) := by
      intro hc
      exact hnp (List.isPrefixOf_iff_prefix.mp hc.2)
    rw [List.cons_append, pyReplace_cons_no_match _ _ _ _ hcond,
      ih fun hi => hinf (List.infix_cons hi)]
    rfl

/-- C3 counterexample: `SCSSProgram.get_desired_filename` is
`source_filename.replace('scss', 'css')`, which replaces every occurrence
of the substring `scss`, not only the extension: the source path
`scss/a.scss` maps to `css/a.css`, with its directory renamed, not to
`scss/a.css` as the claim requires. -/
theorem scss_desired_filename_counterexample :
    scss_get_desired_filename "scss/a.scss".toList = "css/a.css".toList ∧
    scss_get_desired_filename "scss/a.scss".toList ≠ "scss/a.css".toList := by
  have h : scss_get_desired_filename "scss/a.scss".toList = "css/a.css".toList := by
    simp [scss_get_desired_filename, pyReplace]
  exact ⟨h, by rw [h]; decide⟩

/-- C3 amended: `get_desired_filename` is a pure function of the source
path; the verbatim-copy program returns the path unchanged; the
structured-markup programs map `dir/name.ext` to `dir/name/index.html`,
except that a basename of `index` maps to `dir/index.html`; and the
stylesheet program replaces every occurrence of the substring `scss` in the
path by `css` — which rewrites only the extension whenever `scss` occurs
nowhere else in the path. -/
theorem get_desired_filename_spec :
    (∀ s : Str, copy_get_desired_filename s = s) ∧
    (∀ dir nm ext : Str,
        dir ≠ [] → dir.getLast? ≠ some '/' →
        nm ≠ [] → '/' ∉ nm → '.' ∉ nm → '/' ∉ ext → '.' ∉ ext →
        program_get_desired_filename (dir ++ '/' :: (nm ++ '.' :: ext)) =
          if nm = "index".toList then dir ++ "/index.html".toList
          else dir ++ '/' :: (nm ++ "/index.html".toList)) ∧
    (∀ stem : Str, ¬ ("scss".toList <:+: stem) →
        scss_get_desired_filename (stem ++ ".scss".toList) =
          stem ++ ".css".toList) := by
  refine ⟨fun s => rfl, ?_, fun stem h => pyReplace_scss_extension stem h⟩
  intro dir nm ext hdir0 hdirlast hnm0 hnmslash hnmdot hextslash hextdot
  have hbase : '/' ∉ (nm ++ '.' :: ext) := by
    intro hm
    rcases List.mem_append.mp hm with h | h
    · exact hnmslash h
    · rcases List.mem_cons.mp h with h | h
      · exact absurd h (by decide)
      · exact hextslash h
  have hsplit := osPathSplit_concat dir (nm ++ '.' :: ext) hdir0 hdirlast hbase
  have hsplitext :=
    osPathSplitext_concat nm ext hnm0 hnmdot hnmslash hextdot hextslash
  have hnmlast : nm.getLast? ≠ some '/' :=
    fun h => hnmslash (List.mem_of_mem_getLast? h)
  simp only [program_get_desired_filename]
  rw [hsplit]
  simp only []
  rw [hsplitext]
  simp only []
  by_cases hidx : nm = "index".toList
  · rw [if_pos hidx, if_pos hidx,
      osPathJoin_sep dir _ hdir0 hdirlast (by decide)]
    rfl
  · rw [if_neg hidx, if_neg hidx,
      osPathJoin_sep nm "index.html".toList hnm0 hnmlast (by decide)]
    have hsufhead : (nm ++ '/' :: "index.html".toList).head? ≠ some '/' := by
      cases nm with
      | nil => exact absurd rfl hnm0
      | cons a l =>
        simp only [List.cons_append, List.head?_cons]
        intro h
        injection h with h
        exact hnmslash (h ▸ List.mem_cons_self a l)
    rw [osPathJoin_sep dir _ hdir0 hdirlast hsufhead]
    rfl

/-- Witness for C3 at the spec examples: `posts/hello.md` maps to
`posts/hello/index.html`, `posts/index.md` to `posts/index.html`,
`static/logo.png` copies unchanged, and a stylesheet whose path contains
`scss` only as extension keeps the rest of its path. -/
theorem get_desired_filename_spec_witness :
    program_get_desired_filename "posts/hello.md".toList =
        "posts/hello/index.html".toList ∧
    program_get_desired_filename "posts/index.md".toList =
        "posts/index.html".toList ∧
    copy_get_desired_filename "static/logo.png".toList = "static/logo.png".toList ∧
    scss_get_desired_filename "static/style.scss".toList =
        "static/style.css".toList := by
  refine ⟨?_, ?_, get_desired_filename_spec.1 _, ?_⟩
  · have h := get_desired_filename_spec.2.1 "posts".toList "hello".toList "md".toList
      (by decide) (by decide) (by decide) (by decide) (by decide) (by decide)
      (by decide)
    exact h.trans (by decide)
  · have h := get_desired_filename_spec.2.1 "posts".toList "index".toList "md".toList
      (by decide) (by decide) (by decide) (by decide) (by decide) (by decide)
      (by decide)
    exact h.trans (by decide)
  · have h := get_desired_filename_spec.2.2 "static/style".toList (by decide)
    exact h.trans (by decide)


/-! ## C9 — pagination -/

theorem get_slice_eq_drop_take {α : Type} (entries : List α) (page pp : Nat)
    (hpage : 1 ≤ page) :
    Pagination.get_slice ⟨entries, page, pp⟩ =
      (entries.drop ((page - 1) * pp)).take pp := by
  simp only [Pagination.get_slice]
  have h : page * pp = (page - 1) * pp + pp := by
    cases page with
    | zero => omega
    | succ n => simp [Nat.succ_mul]
  rw [h]
  exact (List.take_drop _ _ _).symm

theorem flatten_chunks {α : Type} (pp : Nat) (hpp : 0 < pp) :
    ∀ (n : Nat) (l : List α), l.length ≤ n →
      ((List.range ((l.length + pp - 1) / pp)).map
        fun i => (l.drop (i * pp)).take pp).flatten = l := by
  intro n
  induction n with
  | zero =>
    intro l hl
    have hnil : l = [] := List.length_eq_zero.mp (Nat.le_zero.mp hl)
    subst hnil
    simp [Nat.div_eq_of_lt (show 0 + pp - 1 < pp by omega)]
  | succ n ih =>
    intro l hl
    cases l with
    | nil => simp [Nat.div_eq_of_lt (show 0 + pp - 1 < pp by omega)]
    | cons a t =>
      have hm1 : 1 ≤ (a :: t).length := by simp
      have hm : ((a :: t).length + pp - 1) / pp =
          (((a :: t).length - pp) + pp - 1) / pp + 1 := by
        by_cases hc : (a :: t).length ≤ pp
        · have h3 : (a :: t).length - pp = 0 := by omega
          rw [h3, Nat.div_eq_of_lt (show 0 + pp - 1 < pp by omega)]
          have h4 : ((a :: t).length + pp - 1) / pp = 1 := by
            apply Nat.div_eq_of_lt_le
            · omega
            · omega
          omega
        · push_neg at hc
          have h1 : (a :: t).length + pp - 1 = ((a :: t).length - 1) + pp := by omega
          have h2 : ((a :: t).length - pp) + pp - 1 =
              ((a :: t).length - pp - 1) + pp := by omega
          have h3 : (a :: t).length - 1 = ((a :: t).length - pp - 1) + pp := by omega
          rw [h1, h2, Nat.add_div_right _ hpp, Nat.add_div_right _ hpp, h3,
            Nat.add_div_right _ hpp]
      rw [hm, List.range_succ_eq_map]
      simp only [List.map_cons, List.flatten_cons, Nat.zero_mul, List.drop_zero,
        List.map_map]
      have htail : ∀ i, ((a :: t).drop ((i + 1) * pp)).take pp =
          (((a :: t).drop pp).drop (i * pp)).take pp := by
        intro i
        rw [List.drop_drop]
        have hmul : pp + i * pp = (i + 1) * pp := by ring
        rw [hmul]
      have hcomp : (List.range ((((a :: t).length - pp) + pp - 1) / pp)).map
            ((fun i => ((a :: t).drop (i * pp)).take pp) ∘ Nat.succ) =
          (List.range ((((a :: t).length - pp) + pp - 1) / pp)).map
            (fun i => (((a :: t).drop pp).drop (i * pp)).take pp) := by
        apply List.map_congr_left
        intro i _
        simpa using htail i
      rw [hcomp]
      have hlen2 : ((a :: t).drop pp).length = (a :: t).length - pp := by simp
      have hih := ih ((a :: t).drop pp) (by
        rw [List.length_drop]
        simp only [List.length_cons] at hl ⊢
        omega)
      rw [hlen2] at hih
      rw [hih, List.take_append_drop]

/-- C9: for every entries list, every `per_page > 0`, and every page number
at least 1, `get_slice` returns the slice
`entries[(page-1)*per_page : page*per_page]` (equivalently: drop
`(page-1)*per_page` elements, then take `per_page`); concatenating
`get_slice` over pages 1 through `pages` in order yields exactly the
original entries list; `has_next` is true iff `page < pages`; `has_prev`
is true iff `page > 1`. -/
theorem pagination_spec {α : Type} (entries : List α) (pp : Nat) (hpp : 0 < pp) :
    (∀ page, 1 ≤ page →
        Pagination.get_slice ⟨entries, page, pp⟩ =
          (entries.drop ((page - 1) * pp)).take pp) ∧
    ((List.range (Pagination.pages (⟨entries, 1, pp⟩ : Pagination α))).map fun i =>
        Pagination.get_slice ⟨entries, i + 1, pp⟩).flatten = entries ∧
    (∀ page, (Pagination.has_next (⟨entries, page, pp⟩ : Pagination α) = true ↔
          page < Pagination.pages (⟨entries, page, pp⟩ : Pagination α)) ∧
        (Pagination.has_prev (⟨entries, page, pp⟩ : Pagination α) = true ↔
          1 < page)) := by
  refine ⟨fun page h => get_slice_eq_drop_take entries page pp h, ?_,
    fun page => ⟨by simp [Pagination.has_next], by simp [Pagination.has_prev]⟩⟩
  have h := flatten_chunks pp hpp entries.length entries (Nat.le_refl _)
  have hmap : (List.range (Pagination.pages (⟨entries, 1, pp⟩ : Pagination α))).map
        (fun i => Pagination.get_slice ⟨entries, i + 1, pp⟩) =
      (List.range (Pagination.pages (⟨entries, 1, pp⟩ : Pagination α))).map
        (fun i => (entries.drop (i * pp)).take pp) := by
    apply List.map_congr_left
    intro i _
    rw [get_slice_eq_drop_take entries (i + 1) pp (by omega)]
    simp
  rw [hmap]
  simpa [Pagination.pages, Pagination.total] using h

/-- Witness for C9 at a concrete pagination: five entries, two per page. -/
theorem pagination_spec_witness :
    (0 : Nat) < 2 ∧
    ((List.range (Pagination.pages (⟨[1, 2, 3, 4, 5], 1, 2⟩ : Pagination Nat))).map
        fun i => Pagination.get_slice ⟨[1, 2, 3, 4, 5], i + 1, 2⟩).flatten =
      [1, 2, 3, 4, 5] ∧
    Pagination.get_slice (⟨[1, 2, 3, 4, 5], 2, 2⟩ : Pagination Nat) = [3, 4] ∧
    Pagination.has_next (⟨[1, 2, 3, 4, 5], 3, 2⟩ : Pagination Nat) = false := by
  refine ⟨by decide, (pagination_spec [1, 2, 3, 4, 5] 2 (by decide)).2.1, ?_, ?_⟩
  · have h := (pagination_spec [1, 2, 3, 4, 5] 2 (by decide)).1 2 (by decide)
    exact h.trans (by decide)
  · have h := ((pagination_spec [1, 2, 3, 4, 5] 2 (by decide)).2.2 3).1
    have h2 : ¬ (3 < Pagination.pages (⟨[1, 2, 3, 4, 5], 3, 2⟩ : Pagination Nat)) := by
      decide
    cases hnx : Pagination.has_next (⟨[1, 2, 3, 4, 5], 3, 2⟩ : Pagination Nat) with
    | false => rfl
    | true => exact absurd (h.mp hnx) h2

end Rstblog
